import Mathlib

/-
Verification of the quadrille optimistic-concurrency transaction core.

The Rust code keeps one atomic slot (AtomicRoot) holding the current
snapshot of a pluggable key-value store.  The version marker of the root is
the identity of the snapshot held in the slot: compare_swap succeeds exactly
when the caller still holds the identity of the snapshot that is currently
in the slot.  Because live snapshots have distinct identities and every
successful publish installs a fresh one, markers are modelled as natural
numbers that a successful publish increments; a captured marker equals the
current marker exactly when no publish happened in between, which is the
same observable behaviour as the pointer compare_exchange in the code.

Snapshots of other actors that are published while a transaction is
committing are modelled by an explicit interference trace: a list with one
entry per iteration of the commit loop, each entry optionally a snapshot
some other actor publishes just before our compare_swap attempt.  The empty
trace is a single-threaded run of commit.
-/

/-- Byte strings, the keys and values of the store interface. -/
abbrev Bytes := List Nat

/-- The single error kind of the core, from enum QuadrilleError. -/
inductive QuadrilleError where
  | KeyConflict
deriving DecidableEq, Repr

/-- The store capability, from trait KVStore: an empty store, pure lookup,
pure copy-on-write insert returning whether the key was present, and the
conflict resolution policy. -/
structure KVStoreOps (σ : Type) where
  default : σ
  get : σ → Bytes → Option Bytes
  insert : σ → Bytes → Bytes → σ × Bool
  resolve : σ → σ → Except QuadrilleError σ

/-- The shared version slot, from struct AtomicRoot: the marker is the
identity of the snapshot currently installed, the value its content. -/
structure RootState (σ : Type) where
  marker : Nat
  value : σ
deriving DecidableEq, Repr

/-- AtomicRoot.get: an owning reference to the current snapshot. -/
def RootState.read (r : RootState σ) : σ :=
  r.value

/-- AtomicRoot.swap: unconditional publish, returns the displaced snapshot.
The installed snapshot is a fresh allocation, hence the fresh marker. -/
def RootState.swap (r : RootState σ) (v : σ) : RootState σ × σ :=
  (⟨r.marker + 1, v⟩, r.value)

/-- AtomicRoot.basis: capture the current marker together with the snapshot
it names. -/
def RootState.basis (r : RootState σ) : Nat × σ :=
  (r.marker, r.value)

/-- AtomicRoot.compare_swap: version-conditioned publish.  If the captured
marker still names the current snapshot, install the candidate and hand back
the displaced snapshot; otherwise leave the slot alone and hand the
candidate back unchanged. -/
def RootState.compare_swap (r : RootState σ) (basis : Nat) (new : σ) :
    RootState σ × Except σ σ :=
  if basis = r.marker then
    (⟨r.marker + 1, new⟩, Except.ok r.value)
  else
    (r, Except.error new)

/-- A transaction, from struct Transation: the marker observed at capture
time, the basis snapshot it names, and the private working snapshot.  The
shared root the transaction would publish to is threaded explicitly through
the operations below. -/
structure Transation (σ : Type) where
  basis_marker : Nat
  basis : σ
  current : σ
deriving DecidableEq, Repr

/-- Transation.get: pure lookup in the private working snapshot. -/
def Transation.get (S : KVStoreOps σ) (t : Transation σ) (key : Bytes) :
    Option Bytes :=
  S.get t.current key

/-- Transation.insert: replace the working snapshot by the pure insert of
the store, report whether the key was present.  The method holds a
reference to the shared root but never touches it, so the root state passes
through unchanged. -/
def Transation.insert (S : KVStoreOps σ) (r : RootState σ) (t : Transation σ)
    (key val : Bytes) : RootState σ × Transation σ × Bool :=
  let p := S.insert t.current key val
  (r, { t with current := p.1 }, p.2)

/-- Quadrille.transaction: open a transaction on the current root, seeding
basis marker, basis and working snapshot from one capture. -/
def Quadrille.transaction (r : RootState σ) : Transation σ :=
  ⟨r.marker, r.value, r.value⟩

/-- Quadrille.new: a fresh handle over the default store. -/
def Quadrille.new (S : KVStoreOps σ) : RootState σ :=
  ⟨0, S.default⟩

/-- One interference event: another actor may publish a snapshot to the
root (a successful publish always installs a fresh identity). -/
def applyInterf (r : RootState σ) (o : Option σ) : RootState σ :=
  match o with
  | none => r
  | some v => (r.swap v).1

/-- Outcome of one iteration of the commit loop body. -/
inductive StepResult (σ : Type) where
  | committed (root : RootState σ)
  | conflicted (e : QuadrilleError) (root : RootState σ)
  | retry (t : Transation σ) (root : RootState σ)
deriving Repr

/-- One iteration of the body of Transation.commit: attempt the
version-conditioned publish of the working snapshot; on failure re-capture
basis marker and basis from the root (update_basis) and fold the intent
onto the new basis with resolve, either aborting with its error or retrying
with the refreshed transaction. -/
def commitStep (S : KVStoreOps σ) (t : Transation σ) (r : RootState σ) :
    StepResult σ :=
  match RootState.compare_swap r t.basis_marker t.current with
  | (r1, Except.ok _) => StepResult.committed r1
  | (r1, Except.error cand) =>
    match S.resolve r1.value cand with
    | Except.error e => StepResult.conflicted e r1
    | Except.ok cur => StepResult.retry ⟨r1.marker, r1.value, cur⟩ r1

/-- Transation.commit: loop until the version-conditioned publish succeeds,
refreshing basis and working snapshot through resolve after every failed
attempt, aborting as soon as resolve reports a conflict.  The interference
trace lists, for each iteration, the snapshot another actor publishes just
before our attempt, if any; past the end of the trace no other actor
intervenes.  Returns the final root (a successful commit hands it back as a
usable handle) and the result of the commit. -/
def commitGo (S : KVStoreOps σ) (t : Transation σ) (r : RootState σ)
    (is : List (Option σ)) : RootState σ × Except QuadrilleError Unit :=
  match is with
  | [] =>
    match h : commitStep S t r with
    | StepResult.committed r1 => (r1, Except.ok ())
    | StepResult.conflicted e r1 => (r1, Except.error e)
    | StepResult.retry t1 r1 => commitGo S t1 r1 []
  | o :: rest =>
    match h : commitStep S t (applyInterf r o) with
    | StepResult.committed r1 => (r1, Except.ok ())
    | StepResult.conflicted e r1 => (r1, Except.error e)
    | StepResult.retry t1 r1 => commitGo S t1 r1 rest
termination_by is.length + (if t.basis_marker = r.marker then 0 else 1)
decreasing_by
  · simp only [commitStep, RootState.compare_swap] at h
    by_cases hb : t.basis_marker = r.marker
    · simp [hb] at h
    · simp only [if_neg hb] at h
      cases hres : S.resolve r.value t.current with
      | error e => rw [hres] at h; cases h
      | ok c =>
        rw [hres] at h
        cases h
        simp [hb]
  · simp only [commitStep, RootState.compare_swap] at h
    by_cases hb : t.basis_marker = (applyInterf r o).marker
    · simp [hb] at h
    · simp only [if_neg hb] at h
      cases hres : S.resolve (applyInterf r o).value t.current with
      | error e => rw [hres] at h; cases h
      | ok c =>
        rw [hres] at h
        cases h
        simp
        omega

/-- The abstract map content of a NaiveBTree, as an association list:
lookup of the first matching key. -/
def mapGet : List (Bytes × Bytes) → Bytes → Option Bytes
  | [], _ => none
  | e :: rest, key => if e.1 = key then some e.2 else mapGet rest key

/-- Copy-on-write insert into the association list: replace the value of an
existing key in place, otherwise add the binding; report whether the key
was present, like the insert of the underlying ordered map. -/
def mapInsert : List (Bytes × Bytes) → Bytes → Bytes → List (Bytes × Bytes) × Bool
  | [], key, val => ([(key, val)], false)
  | e :: rest, key, val =>
    if e.1 = key then
      ((e.1, val) :: rest, true)
    else
      let p := mapInsert rest key val
      (e :: p.1, p.2)

/-- The illustrative store, from struct NaiveBTree: a persistent map from
byte keys to byte values. -/
structure NaiveBTree where
  entries : List (Bytes × Bytes)
deriving DecidableEq, Repr

/-- NaiveBTree get: clone the value stored at the key, if any. -/
def NaiveBTree.get (s : NaiveBTree) (key : Bytes) : Option Bytes :=
  mapGet s.entries key

/-- NaiveBTree insert: clone the map, insert, report whether the key held a
value before. -/
def NaiveBTree.insert (s : NaiveBTree) (key val : Bytes) : NaiveBTree × Bool :=
  let p := mapInsert s.entries key val
  (⟨p.1⟩, p.2)

/-- NaiveBTree resolve: the always-refuse policy, every conflict is fatal. -/
def NaiveBTree.resolve (basis prev : NaiveBTree) :
    Except QuadrilleError NaiveBTree :=
  Except.error QuadrilleError.KeyConflict

/-- The KVStore capability of NaiveBTree. -/
def NaiveBTreeOps : KVStoreOps NaiveBTree where
  default := ⟨[]⟩
  get := NaiveBTree.get
  insert := NaiveBTree.insert
  resolve := NaiveBTree.resolve

/-- A lenient store over the same map: resolve keeps the losing snapshot
wholesale, so it never refuses.  Used to instantiate results about stores
whose resolve always succeeds. -/
def LastWriteWinsOps : KVStoreOps NaiveBTree where
  default := ⟨[]⟩
  get := NaiveBTree.get
  insert := NaiveBTree.insert
  resolve := fun _ prev => Except.ok prev

/-- A degenerate store over the same map whose resolve discards everything
and reconciles to the empty map.  Its signature satisfies the store
capability (the merge policy is store-defined), and it exhibits that a
resolve result need not extend the basis it was given. -/
def DiscardingOps : KVStoreOps NaiveBTree where
  default := ⟨[]⟩
  get := NaiveBTree.get
  insert := NaiveBTree.insert
  resolve := fun _ _ => Except.ok ⟨[]⟩

/-- A lenient store over the same map whose resolve reconciles to the new
basis itself, dropping the losing intent: its results are always reachable
from the basis by zero inserts. -/
def KeepBasisOps : KVStoreOps NaiveBTree where
  default := ⟨[]⟩
  get := NaiveBTree.get
  insert := NaiveBTree.insert
  resolve := fun basis _ => Except.ok basis

/-- A sequence of Transation.insert calls, one per key/value pair,
threading the (untouched) root along. -/
def applyInserts (S : KVStoreOps σ) (r : RootState σ) (t : Transation σ) :
    List (Bytes × Bytes) → RootState σ × Transation σ
  | [] => (r, t)
  | op :: ops =>
    applyInserts S (Transation.insert S r t op.1 op.2).1
      (Transation.insert S r t op.1 op.2).2.1 ops

/-- Snapshots reachable from a basis by zero or more pure store inserts. -/
inductive Reach (S : KVStoreOps σ) : σ → σ → Prop where
  | refl (s : σ) : Reach S s s
  | step (a b : σ) (key val : Bytes) :
      Reach S a b → Reach S a (S.insert b key val).1

theorem compare_swap_hit (r : RootState σ) (b : Nat) (n : σ) (h : b = r.marker) :
    RootState.compare_swap r b n = (⟨r.marker + 1, n⟩, Except.ok r.value) := by
  simp [RootState.compare_swap, h]

theorem compare_swap_miss (r : RootState σ) (b : Nat) (n : σ) (h : b ≠ r.marker) :
    RootState.compare_swap r b n = (r, Except.error n) := by
  simp [RootState.compare_swap, h]

theorem commitStep_hit (S : KVStoreOps σ) (t : Transation σ) (r : RootState σ)
    (h : t.basis_marker = r.marker) :
    commitStep S t r = StepResult.committed ⟨r.marker + 1, t.current⟩ := by
  simp [commitStep, compare_swap_hit r _ _ h]

theorem commitStep_miss_conflict (S : KVStoreOps σ) (t : Transation σ)
    (r : RootState σ) (e : QuadrilleError) (h : t.basis_marker ≠ r.marker)
    (hres : S.resolve r.value t.current = Except.error e) :
    commitStep S t r = StepResult.conflicted e r := by
  simp [commitStep, compare_swap_miss r _ _ h, hres]

theorem commitStep_miss_retry (S : KVStoreOps σ) (t : Transation σ)
    (r : RootState σ) (c : σ) (h : t.basis_marker ≠ r.marker)
    (hres : S.resolve r.value t.current = Except.ok c) :
    commitStep S t r = StepResult.retry ⟨r.marker, r.value, c⟩ r := by
  simp [commitStep, compare_swap_miss r _ _ h, hres]

theorem commitStep_retry_inv (S : KVStoreOps σ) (t : Transation σ)
    (r : RootState σ) (t1 : Transation σ) (r1 : RootState σ)
    (h : commitStep S t r = StepResult.retry t1 r1) :
    t.basis_marker ≠ r.marker ∧ t1.basis_marker = r1.marker ∧ r1 = r ∧
      t1.basis = r.value := by
  by_cases hb : t.basis_marker = r.marker
  · rw [commitStep_hit S t r hb] at h
    exact absurd h (by simp)
  · cases hres : S.resolve r.value t.current with
    | error e =>
      rw [commitStep_miss_conflict S t r e hb hres] at h
      exact absurd h (by simp)
    | ok c =>
      rw [commitStep_miss_retry S t r c hb hres] at h
      cases h
      exact ⟨hb, rfl, rfl, rfl⟩

theorem commitStep_retry_resolve (S : KVStoreOps σ) (t : Transation σ)
    (r : RootState σ) (t1 : Transation σ) (r1 : RootState σ)
    (h : commitStep S t r = StepResult.retry t1 r1) :
    S.resolve r.value t.current = Except.ok t1.current := by
  by_cases hb : t.basis_marker = r.marker
  · rw [commitStep_hit S t r hb] at h
    cases h
  · cases hres : S.resolve r.value t.current with
    | error e =>
      rw [commitStep_miss_conflict S t r e hb hres] at h
      cases h
    | ok c =>
      rw [commitStep_miss_retry S t r c hb hres] at h
      cases h
      rfl

theorem commitGo_nil_hit (S : KVStoreOps σ) (t : Transation σ) (r : RootState σ)
    (h : t.basis_marker = r.marker) :
    commitGo S t r [] = (⟨r.marker + 1, t.current⟩, Except.ok ()) := by
  rw [commitGo]
  split
  · rename_i r1 heq
    rw [commitStep_hit S t r h] at heq
    cases heq
    rfl
  · rename_i e r1 heq
    rw [commitStep_hit S t r h] at heq
    cases heq
  · rename_i t1 r1 heq
    rw [commitStep_hit S t r h] at heq
    cases heq

theorem commitGo_nil_conflict (S : KVStoreOps σ) (t : Transation σ)
    (r : RootState σ) (e : QuadrilleError) (h : t.basis_marker ≠ r.marker)
    (hres : S.resolve r.value t.current = Except.error e) :
    commitGo S t r [] = (r, Except.error e) := by
  rw [commitGo]
  split
  · rename_i r1 heq
    rw [commitStep_miss_conflict S t r e h hres] at heq
    cases heq
  · rename_i e1 r1 heq
    rw [commitStep_miss_conflict S t r e h hres] at heq
    cases heq
    rfl
  · rename_i t1 r1 heq
    rw [commitStep_miss_conflict S t r e h hres] at heq
    cases heq

theorem commitGo_nil_retry (S : KVStoreOps σ) (t : Transation σ)
    (r : RootState σ) (c : σ) (h : t.basis_marker ≠ r.marker)
    (hres : S.resolve r.value t.current = Except.ok c) :
    commitGo S t r [] = (⟨r.marker + 1, c⟩, Except.ok ()) := by
  rw [commitGo]
  split
  · rename_i r1 heq
    rw [commitStep_miss_retry S t r c h hres] at heq
    cases heq
  · rename_i e1 r1 heq
    rw [commitStep_miss_retry S t r c h hres] at heq
    cases heq
  · rename_i t1 r1 heq
    rw [commitStep_miss_retry S t r c h hres] at heq
    cases heq
    exact commitGo_nil_hit S _ r rfl

theorem commitGo_cons_hit (S : KVStoreOps σ) (t : Transation σ)
    (r : RootState σ) (o : Option σ) (rest : List (Option σ))
    (h : t.basis_marker = (applyInterf r o).marker) :
    commitGo S t r (o :: rest) =
      (⟨(applyInterf r o).marker + 1, t.current⟩, Except.ok ()) := by
  rw [commitGo]
  split
  · rename_i r1 heq
    rw [commitStep_hit S t (applyInterf r o) h] at heq
    cases heq
    rfl
  · rename_i e r1 heq
    rw [commitStep_hit S t (applyInterf r o) h] at heq
    cases heq
  · rename_i t1 r1 heq
    rw [commitStep_hit S t (applyInterf r o) h] at heq
    cases heq

theorem commitGo_cons_conflict (S : KVStoreOps σ) (t : Transation σ)
    (r : RootState σ) (o : Option σ) (rest : List (Option σ))
    (e : QuadrilleError) (h : t.basis_marker ≠ (applyInterf r o).marker)
    (hres : S.resolve (applyInterf r o).value t.current = Except.error e) :
    commitGo S t r (o :: rest) = (applyInterf r o, Except.error e) := by
  rw [commitGo]
  split
  · rename_i r1 heq
    rw [commitStep_miss_conflict S t (applyInterf r o) e h hres] at heq
    cases heq
  · rename_i e1 r1 heq
    rw [commitStep_miss_conflict S t (applyInterf r o) e h hres] at heq
    cases heq
    rfl
  · rename_i t1 r1 heq
    rw [commitStep_miss_conflict S t (applyInterf r o) e h hres] at heq
    cases heq

theorem commitGo_cons_retry (S : KVStoreOps σ) (t : Transation σ)
    (r : RootState σ) (o : Option σ) (rest : List (Option σ)) (c : σ)
    (h : t.basis_marker ≠ (applyInterf r o).marker)
    (hres : S.resolve (applyInterf r o).value t.current = Except.ok c) :
    commitGo S t r (o :: rest) =
      commitGo S ⟨(applyInterf r o).marker, (applyInterf r o).value, c⟩
        (applyInterf r o) rest := by
  rw [commitGo]
  split
  · rename_i r1 heq
    rw [commitStep_miss_retry S t (applyInterf r o) c h hres] at heq
    cases heq
  · rename_i e1 r1 heq
    rw [commitStep_miss_retry S t (applyInterf r o) c h hres] at heq
    cases heq
  · rename_i t1 r1 heq
    rw [commitStep_miss_retry S t (applyInterf r o) c h hres] at heq
    cases heq
    rfl

theorem commitGo_nil_error_frame (S : KVStoreOps σ) (t : Transation σ)
    (r : RootState σ) (e : QuadrilleError)
    (h : (commitGo S t r []).2 = Except.error e) :
    (commitGo S t r []).1 = r := by
  by_cases hb : t.basis_marker = r.marker
  · rw [commitGo_nil_hit S t r hb] at h
    cases h
  · cases hres : S.resolve r.value t.current with
    | error e1 => rw [commitGo_nil_conflict S t r e1 hb hres]
    | ok c =>
      rw [commitGo_nil_retry S t r c hb hres] at h
      cases h

theorem commitGo_total_ok (S : KVStoreOps σ)
    (hres : ∀ b p, ∃ c, S.resolve b p = Except.ok c)
    (is : List (Option σ)) (t : Transation σ) (r : RootState σ) :
    (commitGo S t r is).2 = Except.ok () := by
  induction is generalizing t r with
  | nil =>
    by_cases hb : t.basis_marker = r.marker
    · rw [commitGo_nil_hit S t r hb]
    · obtain ⟨c, hc⟩ := hres r.value t.current
      rw [commitGo_nil_retry S t r c hb hc]
  | cons o rest ih =>
    by_cases hb : t.basis_marker = (applyInterf r o).marker
    · rw [commitGo_cons_hit S t r o rest hb]
    · obtain ⟨c, hc⟩ := hres (applyInterf r o).value t.current
      rw [commitGo_cons_retry S t r o rest c hb hc]
      exact ih _ _

theorem mapGet_mapInsert_self (l : List (Bytes × Bytes)) (key val : Bytes) :
    mapGet (mapInsert l key val).1 key = some val := by
  induction l with
  | nil => simp [mapInsert, mapGet]
  | cons e rest ih =>
    by_cases he : e.1 = key
    · simp [mapInsert, he, mapGet]
    · simp [mapInsert, he, mapGet, ih]

theorem mapGet_mapInsert_other (l : List (Bytes × Bytes)) (key val k : Bytes)
    (hk : k ≠ key) : mapGet (mapInsert l key val).1 k = mapGet l k := by
  have hk2 : key ≠ k := Ne.symm hk
  induction l with
  | nil => simp [mapInsert, mapGet, hk2]
  | cons e rest ih =>
    by_cases he : e.1 = key
    · simp [mapInsert, he, mapGet, hk2]
    · simp [mapInsert, he, mapGet, ih]

theorem mapInsert_found (l : List (Bytes × Bytes)) (key val : Bytes) :
    (mapInsert l key val).2 = (mapGet l key).isSome := by
  induction l with
  | nil => simp [mapInsert, mapGet]
  | cons e rest ih =>
    by_cases he : e.1 = key
    · simp [mapInsert, he, mapGet]
    · simp [mapInsert, he, mapGet, ih]

theorem mapGet_mapInsert_isSome (l : List (Bytes × Bytes)) (key val k : Bytes)
    (h : (mapGet l k).isSome) : (mapGet (mapInsert l key val).1 k).isSome := by
  by_cases hk : k = key
  · subst hk
    simp [mapGet_mapInsert_self]
  · rwa [mapGet_mapInsert_other l key val k hk]

theorem applyInserts_root (S : KVStoreOps σ) (ops : List (Bytes × Bytes))
    (r : RootState σ) (t : Transation σ) : (applyInserts S r t ops).1 = r := by
  induction ops generalizing r t with
  | nil => rfl
  | cons op ops ih => exact ih _ _

theorem applyInserts_basis (S : KVStoreOps σ) (ops : List (Bytes × Bytes))
    (r : RootState σ) (t : Transation σ) :
    (applyInserts S r t ops).2.basis = t.basis := by
  induction ops generalizing r t with
  | nil => rfl
  | cons op ops ih => exact ih _ _

theorem reach_discarding_isSome (a c : NaiveBTree)
    (h : Reach DiscardingOps a c) :
    ∀ k, (mapGet a.entries k).isSome → (mapGet c.entries k).isSome := by
  induction h with
  | refl => exact fun _ hk => hk
  | step b key val hr ih =>
    intro k hk
    simpa [DiscardingOps, NaiveBTree.insert] using
      mapGet_mapInsert_isSome b.entries key val k (ih k hk)

/-- Claim C1: the version-conditioned publish compare_swap succeeds exactly
when the captured marker still equals the current marker of the root; on
success it installs the candidate as the new root value and returns the
displaced snapshot; on failure it returns the candidate unchanged and
leaves the root unchanged. -/
theorem quadrille_c1 (r : RootState σ) (m : Nat) (cand : σ) :
    (m = r.marker →
      RootState.compare_swap r m cand =
        (⟨r.marker + 1, cand⟩, Except.ok r.value)) ∧
    (m ≠ r.marker →
      RootState.compare_swap r m cand = (r, Except.error cand)) :=
  ⟨compare_swap_hit r m cand, compare_swap_miss r m cand⟩

theorem quadrille_c1_witness :
    RootState.compare_swap (⟨5, (⟨[]⟩ : NaiveBTree)⟩ : RootState NaiveBTree) 5
        ⟨[([0], [1])]⟩ = (⟨6, ⟨[([0], [1])]⟩⟩, Except.ok ⟨[]⟩) ∧
    RootState.compare_swap (⟨5, (⟨[]⟩ : NaiveBTree)⟩ : RootState NaiveBTree) 4
        ⟨[([0], [1])]⟩ = (⟨5, ⟨[]⟩⟩, Except.error ⟨[([0], [1])]⟩) :=
  ⟨(quadrille_c1 _ 5 _).1 rfl, (quadrille_c1 _ 4 _).2 (by decide)⟩

/-- Claim C2: the commit loop body is exactly: attempt the
version-conditioned publish of the working snapshot under the basis marker;
on success stop with the new root as the handle; on failure re-capture
marker and snapshot from the root, set basis_marker and basis to them,
replace the working snapshot with the store resolve of the new basis and
the old working snapshot, and retry; a resolve conflict aborts the whole
commit immediately with that error, writing nothing to the root. -/
theorem quadrille_c2 (S : KVStoreOps σ) (t : Transation σ) (r : RootState σ)
    (o : Option σ) (rest : List (Option σ)) (e : QuadrilleError) (c : σ) :
    (t.basis_marker = (applyInterf r o).marker →
      commitGo S t r (o :: rest) =
        (⟨(applyInterf r o).marker + 1, t.current⟩, Except.ok ())) ∧
    (t.basis_marker ≠ (applyInterf r o).marker →
      S.resolve (applyInterf r o).value t.current = Except.error e →
      commitGo S t r (o :: rest) = (applyInterf r o, Except.error e)) ∧
    (t.basis_marker ≠ (applyInterf r o).marker →
      S.resolve (applyInterf r o).value t.current = Except.ok c →
      commitGo S t r (o :: rest) =
        commitGo S ⟨(applyInterf r o).marker, (applyInterf r o).value, c⟩
          (applyInterf r o) rest) :=
  ⟨commitGo_cons_hit S t r o rest,
   commitGo_cons_conflict S t r o rest e,
   commitGo_cons_retry S t r o rest c⟩

theorem quadrille_c2_witness :
    commitGo NaiveBTreeOps ⟨0, ⟨[]⟩, ⟨[([0], [1])]⟩⟩ ⟨0, ⟨[]⟩⟩ [none] =
      (⟨1, ⟨[([0], [1])]⟩⟩, Except.ok ()) ∧
    commitGo NaiveBTreeOps ⟨0, ⟨[]⟩, ⟨[([0], [2])]⟩⟩ ⟨1, ⟨[([0], [1])]⟩⟩
        [none] =
      (⟨1, ⟨[([0], [1])]⟩⟩, Except.error QuadrilleError.KeyConflict) ∧
    commitGo LastWriteWinsOps ⟨0, ⟨[]⟩, ⟨[([0], [2])]⟩⟩ ⟨1, ⟨[([0], [1])]⟩⟩
        [none] =
      commitGo LastWriteWinsOps ⟨1, ⟨[([0], [1])]⟩, ⟨[([0], [2])]⟩⟩
        ⟨1, ⟨[([0], [1])]⟩⟩ [] := by
  refine ⟨?_, ?_, ?_⟩
  · exact (quadrille_c2 NaiveBTreeOps ⟨0, ⟨[]⟩, ⟨[([0], [1])]⟩⟩ ⟨0, ⟨[]⟩⟩
      none [] QuadrilleError.KeyConflict ⟨[]⟩).1 (by decide)
  · exact (quadrille_c2 NaiveBTreeOps ⟨0, ⟨[]⟩, ⟨[([0], [2])]⟩⟩
      ⟨1, ⟨[([0], [1])]⟩⟩ none [] QuadrilleError.KeyConflict ⟨[]⟩).2.1
      (by decide) rfl
  · exact (quadrille_c2 LastWriteWinsOps ⟨0, ⟨[]⟩, ⟨[([0], [2])]⟩⟩
      ⟨1, ⟨[([0], [1])]⟩⟩ none [] QuadrilleError.KeyConflict
      ⟨[([0], [2])]⟩).2.2 (by decide) rfl

/-- Claim C5: a commit that returns the conflict error leaves the root
snapshot exactly as it was when commit was called (single-threaded run: the
failed commit itself performed no write to the root), and a failed
version-conditioned publish returns the candidate unchanged without
modifying the root. -/
theorem quadrille_c5 (S : KVStoreOps σ) (t : Transation σ) (r : RootState σ)
    (e : QuadrilleError) (m : Nat) (cand : σ) :
    ((commitGo S t r []).2 = Except.error e → (commitGo S t r []).1 = r) ∧
    (m ≠ r.marker → RootState.compare_swap r m cand = (r, Except.error cand)) :=
  ⟨commitGo_nil_error_frame S t r e, compare_swap_miss r m cand⟩

theorem quadrille_c5_witness :
    (commitGo NaiveBTreeOps ⟨0, ⟨[]⟩, ⟨[([0], [2])]⟩⟩ ⟨1, ⟨[([0], [1])]⟩⟩
        []).1 = ⟨1, ⟨[([0], [1])]⟩⟩ ∧
    RootState.compare_swap (⟨1, (⟨[([0], [1])]⟩ : NaiveBTree)⟩ :
        RootState NaiveBTree) 0 ⟨[]⟩ =
      (⟨1, ⟨[([0], [1])]⟩⟩, Except.error ⟨[]⟩) := by
  refine ⟨(quadrille_c5 NaiveBTreeOps ⟨0, ⟨[]⟩, ⟨[([0], [2])]⟩⟩
      ⟨1, ⟨[([0], [1])]⟩⟩ QuadrilleError.KeyConflict 0 ⟨[]⟩).1 ?_,
    (quadrille_c5 NaiveBTreeOps ⟨0, ⟨[]⟩, ⟨[([0], [2])]⟩⟩
      ⟨1, ⟨[([0], [1])]⟩⟩ QuadrilleError.KeyConflict 0 ⟨[]⟩).2 (by decide)⟩
  simp [commitGo, commitStep, RootState.compare_swap, NaiveBTreeOps,
    NaiveBTree.resolve]

/-- Claim C6: for a store whose resolve always succeeds, commit never
surfaces the conflict error: every run of the commit loop, whatever the
interference of other writers, ends with a successful publish. -/
theorem quadrille_c6 (S : KVStoreOps σ)
    (hres : ∀ b p, ∃ c, S.resolve b p = Except.ok c)
    (t : Transation σ) (r : RootState σ) (is : List (Option σ)) :
    (commitGo S t r is).2 = Except.ok () :=
  commitGo_total_ok S hres is t r

theorem quadrille_c6_witness :
    (commitGo LastWriteWinsOps ⟨0, ⟨[]⟩, ⟨[([0], [2])]⟩⟩ ⟨1, ⟨[([0], [1])]⟩⟩
        [some ⟨[([3], [4])]⟩, none]).2 = Except.ok () :=
  quadrille_c6 LastWriteWinsOps (fun _ p => ⟨p, rfl⟩) _ _ _

/-- Claim C3: after a commit succeeds, transactions opened on the handle
observe the committed writes: a successful uncontended commit publishes the
working snapshot, and every transaction opened on the new root reads from
it; in particular the end-to-end scenario of the NaiveBTree test holds:
on the empty store, transaction A reads no value at key 0, inserts value 1
there with existed false, then reads 1; a concurrently open B still reads
nothing; A commits successfully; a transaction opened afterwards reads 1. -/
theorem quadrille_c3 (S : KVStoreOps σ) (t : Transation σ) (r r1 : RootState σ)
    (hfresh : t.basis_marker = r.marker)
    (hcommit : commitGo S t r [] = (r1, Except.ok ())) :
    (∀ key, Transation.get S (Quadrille.transaction r1) key =
      S.get t.current key) ∧
    (Transation.get NaiveBTreeOps
        (Quadrille.transaction (Quadrille.new NaiveBTreeOps)) [0] = none ∧
      (Transation.insert NaiveBTreeOps (Quadrille.new NaiveBTreeOps)
        (Quadrille.transaction (Quadrille.new NaiveBTreeOps)) [0] [1]).2.2 =
        false ∧
      Transation.get NaiveBTreeOps
        (Transation.insert NaiveBTreeOps (Quadrille.new NaiveBTreeOps)
          (Quadrille.transaction (Quadrille.new NaiveBTreeOps)) [0] [1]).2.1
        [0] = some [1] ∧
      Transation.get NaiveBTreeOps
        (Quadrille.transaction (Quadrille.new NaiveBTreeOps)) [0] = none ∧
      commitGo NaiveBTreeOps
        (Transation.insert NaiveBTreeOps (Quadrille.new NaiveBTreeOps)
          (Quadrille.transaction (Quadrille.new NaiveBTreeOps)) [0] [1]).2.1
        (Quadrille.new NaiveBTreeOps) [] =
        (⟨1, ⟨[([0], [1])]⟩⟩, Except.ok ()) ∧
      Transation.get NaiveBTreeOps
        (Quadrille.transaction (⟨1, ⟨[([0], [1])]⟩⟩ : RootState NaiveBTree))
        [0] = some [1]) := by
  constructor
  · intro key
    rw [commitGo_nil_hit S t r hfresh] at hcommit
    injection hcommit with h1 h2
    subst h1
    rfl
  · refine ⟨by decide, by decide, by decide, by decide, ?_, by decide⟩
    have h3 : (Transation.insert NaiveBTreeOps (Quadrille.new NaiveBTreeOps)
        (Quadrille.transaction (Quadrille.new NaiveBTreeOps)) [0] [1]).2.1 =
        ⟨0, ⟨[]⟩, ⟨[([0], [1])]⟩⟩ := by decide
    rw [h3]
    exact commitGo_nil_hit NaiveBTreeOps ⟨0, ⟨[]⟩, ⟨[([0], [1])]⟩⟩
      (Quadrille.new NaiveBTreeOps) rfl

theorem quadrille_c3_witness :
    Transation.get NaiveBTreeOps
        (Quadrille.transaction (⟨1, ⟨[([0], [1])]⟩⟩ : RootState NaiveBTree))
        [0] =
      NaiveBTreeOps.get ⟨[([0], [1])]⟩ [0] := by
  have h := quadrille_c3 NaiveBTreeOps ⟨0, ⟨[]⟩, ⟨[([0], [1])]⟩⟩ ⟨0, ⟨[]⟩⟩
    ⟨1, ⟨[([0], [1])]⟩⟩ rfl
    (commitGo_nil_hit NaiveBTreeOps ⟨0, ⟨[]⟩, ⟨[([0], [1])]⟩⟩ ⟨0, ⟨[]⟩⟩ rfl)
  exact h.1 [0]

/-- Claim C4: with the always-refusing NaiveBTree store, transactions A
and B open from the same empty basis; A inserts value 1 at key 0 and
commits successfully; B inserts value 2 at key 0 and commits; the commit of
B invokes resolve with the committed state of A as the new basis, resolve
refuses, the commit of B returns the conflict error and the root still
holds only the binding of A. -/
theorem quadrille_c4 :
    (Transation.insert NaiveBTreeOps (Quadrille.new NaiveBTreeOps)
      (Quadrille.transaction (Quadrille.new NaiveBTreeOps)) [0] [1]).2.1 =
      ⟨0, ⟨[]⟩, ⟨[([0], [1])]⟩⟩ ∧
    (Transation.insert NaiveBTreeOps (Quadrille.new NaiveBTreeOps)
      (Quadrille.transaction (Quadrille.new NaiveBTreeOps)) [0] [2]).2.1 =
      ⟨0, ⟨[]⟩, ⟨[([0], [2])]⟩⟩ ∧
    commitGo NaiveBTreeOps ⟨0, ⟨[]⟩, ⟨[([0], [1])]⟩⟩
      (Quadrille.new NaiveBTreeOps) [] = (⟨1, ⟨[([0], [1])]⟩⟩, Except.ok ()) ∧
    NaiveBTreeOps.resolve ⟨[([0], [1])]⟩ ⟨[([0], [2])]⟩ =
      Except.error QuadrilleError.KeyConflict ∧
    commitGo NaiveBTreeOps ⟨0, ⟨[]⟩, ⟨[([0], [2])]⟩⟩ ⟨1, ⟨[([0], [1])]⟩⟩ [] =
      (⟨1, ⟨[([0], [1])]⟩⟩, Except.error QuadrilleError.KeyConflict) := by
  refine ⟨by decide, by decide, ?_, rfl, ?_⟩
  · exact commitGo_nil_hit NaiveBTreeOps ⟨0, ⟨[]⟩, ⟨[([0], [1])]⟩⟩
      (Quadrille.new NaiveBTreeOps) rfl
  · exact commitGo_nil_conflict NaiveBTreeOps ⟨0, ⟨[]⟩, ⟨[([0], [2])]⟩⟩
      ⟨1, ⟨[([0], [1])]⟩⟩ QuadrilleError.KeyConflict (by decide) rfl

/-- Claim C7: uncommitted inserts are isolated: any sequence of inserts on
one transaction leaves the shared root unchanged, so a reader going through
the root sees the old content; concretely on NaiveBTree, after A inserts
value 1 at key 0 without committing, A reads it back but a concurrently
open B still reads nothing at key 0. -/
theorem quadrille_c7 (S : KVStoreOps σ) (r : RootState σ) (A : Transation σ)
    (ops : List (Bytes × Bytes)) (key : Bytes) :
    (applyInserts S r A ops).1 = r ∧
    Transation.get S (Quadrille.transaction (applyInserts S r A ops).1) key =
      S.get r.value key ∧
    Transation.get NaiveBTreeOps
      (Transation.insert NaiveBTreeOps (Quadrille.new NaiveBTreeOps)
        (Quadrille.transaction (Quadrille.new NaiveBTreeOps)) [0] [1]).2.1
      [0] = some [1] ∧
    Transation.get NaiveBTreeOps
      (Quadrille.transaction (Quadrille.new NaiveBTreeOps)) [0] = none := by
  refine ⟨applyInserts_root S ops r A, ?_, by decide, by decide⟩
  rw [applyInserts_root S ops r A]
  rfl

/-- Claim C8: for the NaiveBTree store, Transation.insert leaves the root
and the basis untouched and produces a working snapshot equal to the old
one plus the new binding: the inserted key now reads the inserted value,
every other key reads as before, and the returned flag is exactly whether
the key was present in the working snapshot. -/
theorem quadrille_c8 (r : RootState NaiveBTree) (t : Transation NaiveBTree)
    (key val : Bytes) :
    (Transation.insert NaiveBTreeOps r t key val).1 = r ∧
    (Transation.insert NaiveBTreeOps r t key val).2.1.basis = t.basis ∧
    Transation.get NaiveBTreeOps
      (Transation.insert NaiveBTreeOps r t key val).2.1 key = some val ∧
    (∀ k, k ≠ key →
      Transation.get NaiveBTreeOps
        (Transation.insert NaiveBTreeOps r t key val).2.1 k =
        Transation.get NaiveBTreeOps t k) ∧
    (Transation.insert NaiveBTreeOps r t key val).2.2 =
      (Transation.get NaiveBTreeOps t key).isSome := by
  refine ⟨rfl, rfl, ?_, ?_, ?_⟩
  · exact mapGet_mapInsert_self t.current.entries key val
  · intro k hk
    exact mapGet_mapInsert_other t.current.entries key val k hk
  · exact mapInsert_found t.current.entries key val

theorem quadrille_c8_witness :
    Transation.get NaiveBTreeOps
      (Transation.insert NaiveBTreeOps (⟨0, ⟨[]⟩⟩ : RootState NaiveBTree)
        ⟨0, ⟨[]⟩, ⟨[([0], [1])]⟩⟩ [0] [5]).2.1 [2] =
      Transation.get NaiveBTreeOps ⟨0, ⟨[]⟩, ⟨[([0], [1])]⟩⟩ [2] :=
  (quadrille_c8 ⟨0, ⟨[]⟩⟩ ⟨0, ⟨[]⟩, ⟨[([0], [1])]⟩⟩ [0] [5]).2.2.2.1 [2]
    (by decide)

/-- Claim C10: for the NaiveBTree store, the first insert of a fresh key
reports that the key did not exist, while a second insert of the same key
reports that it did and overwrites its value, so a subsequent get returns
the newest value. -/
theorem quadrille_c10 (r : RootState NaiveBTree) (t : Transation NaiveBTree)
    (key v1 v2 : Bytes) :
    (Transation.get NaiveBTreeOps t key = none →
      (Transation.insert NaiveBTreeOps r t key v1).2.2 = false) ∧
    (Transation.insert NaiveBTreeOps r
      (Transation.insert NaiveBTreeOps r t key v1).2.1 key v2).2.2 = true ∧
    Transation.get NaiveBTreeOps
      (Transation.insert NaiveBTreeOps r
        (Transation.insert NaiveBTreeOps r t key v1).2.1 key v2).2.1 key =
      some v2 := by
  refine ⟨?_, ?_, ?_⟩
  · intro h
    have h2 : mapGet t.current.entries key = none := h
    show (mapInsert t.current.entries key v1).2 = false
    rw [mapInsert_found, h2]
    rfl
  · show (mapInsert (mapInsert t.current.entries key v1).1 key v2).2 = true
    rw [mapInsert_found, mapGet_mapInsert_self]
    rfl
  · exact mapGet_mapInsert_self (mapInsert t.current.entries key v1).1 key v2

theorem quadrille_c10_witness :
    (Transation.insert NaiveBTreeOps (⟨0, ⟨[]⟩⟩ : RootState NaiveBTree)
      ⟨0, ⟨[]⟩, ⟨[]⟩⟩ [0] [1]).2.2 = false :=
  (quadrille_c10 ⟨0, ⟨[]⟩⟩ ⟨0, ⟨[]⟩, ⟨[]⟩⟩ [0] [1] [2]).1 (by decide)

/-- Claim C9 counterexample: the claim fails as stated for a store whose
resolve reconciles to the empty map, a merge policy the capability leaves
entirely to the store.  Starting from a transaction whose basis holds the
binding of key 0 and a root that moved on, one iteration of the commit
loop produces the transaction with basis holding that binding and current
the empty map, and that current is not reachable from that basis by pure
inserts (inserts never drop a present key). -/
theorem quadrille_c9_counterexample :
    commitStep DiscardingOps ⟨0, ⟨[([0], [0])]⟩, ⟨[([0], [0])]⟩⟩
        ⟨1, ⟨[([0], [0])]⟩⟩ =
      StepResult.retry ⟨1, ⟨[([0], [0])]⟩, ⟨[]⟩⟩ ⟨1, ⟨[([0], [0])]⟩⟩ ∧
    ¬ Reach DiscardingOps (⟨[([0], [0])]⟩ : NaiveBTree) ⟨[]⟩ := by
  constructor
  · rfl
  · intro h
    have h2 := reach_discarding_isSome _ _ h [0] (by decide)
    simp [mapGet] at h2

/-- Claim C9 (amended): a freshly opened transaction has current reachable
from basis by zero inserts; get and insert keep the invariant, with basis
unchanged; and a commit-loop retry keeps it provided the resolve of the
store returns snapshots reachable from the basis it is given (which holds
vacuously for NaiveBTree, whose resolve never succeeds); the basis is only
ever reassigned to a newly captured snapshot, never mutated. -/
theorem quadrille_c9_amended (S : KVStoreOps σ) (r rr : RootState σ)
    (t t1 : Transation σ) (r1 : RootState σ) (key val : Bytes)
    (hres : ∀ b p c, S.resolve b p = Except.ok c → Reach S b c) :
    Reach S (Quadrille.transaction r).basis (Quadrille.transaction r).current ∧
    (Reach S t.basis t.current →
      (Transation.insert S rr t key val).2.1.basis = t.basis ∧
      Reach S (Transation.insert S rr t key val).2.1.basis
        (Transation.insert S rr t key val).2.1.current) ∧
    (commitStep S t r = StepResult.retry t1 r1 →
      Reach S t1.basis t1.current) := by
  refine ⟨Reach.refl _, fun h => ⟨rfl, Reach.step t.basis t.current key val h⟩,
    fun h => ?_⟩
  have h1 := commitStep_retry_inv S t r t1 r1 h
  have h2 := commitStep_retry_resolve S t r t1 r1 h
  have h3 := hres r.value t.current t1.current h2
  rw [h1.2.2.2]
  exact h3

theorem quadrille_c9_witness :
    Reach KeepBasisOps
      (Quadrille.transaction (⟨1, ⟨[([5], [6])]⟩⟩ : RootState NaiveBTree)).basis
      (Quadrille.transaction
        (⟨1, ⟨[([5], [6])]⟩⟩ : RootState NaiveBTree)).current ∧
    (Transation.insert KeepBasisOps (⟨0, ⟨[]⟩⟩ : RootState NaiveBTree)
      ⟨0, ⟨[]⟩, ⟨[]⟩⟩ [0] [1]).2.1.basis = ⟨[]⟩ ∧
    Reach KeepBasisOps
      (Transation.insert KeepBasisOps (⟨0, ⟨[]⟩⟩ : RootState NaiveBTree)
        ⟨0, ⟨[]⟩, ⟨[]⟩⟩ [0] [1]).2.1.basis
      (Transation.insert KeepBasisOps (⟨0, ⟨[]⟩⟩ : RootState NaiveBTree)
        ⟨0, ⟨[]⟩, ⟨[]⟩⟩ [0] [1]).2.1.current ∧
    Reach KeepBasisOps (⟨[([5], [6])]⟩ : NaiveBTree) ⟨[([5], [6])]⟩ := by
  have H := quadrille_c9_amended KeepBasisOps ⟨1, ⟨[([5], [6])]⟩⟩ ⟨0, ⟨[]⟩⟩
    ⟨0, ⟨[]⟩, ⟨[]⟩⟩ ⟨1, ⟨[([5], [6])]⟩, ⟨[([5], [6])]⟩⟩ ⟨1, ⟨[([5], [6])]⟩⟩
    [0] [1]
    (fun b p c h => by
      have h2 : (Except.ok b : Except QuadrilleError NaiveBTree) =
        Except.ok c := h
      cases h2
      exact Reach.refl b)
  have h2 := H.2.1 (Reach.refl _)
  have h3 := H.2.2 rfl
  exact ⟨H.1, h2.1, h2.2, h3⟩
